import Mathlib

/-!
Verification development for the MintGate marketplace contracts
(`src/mg-core/src/lib.rs` and `src/mg-market/src/lib.rs`).

The Rust code is shallowly embedded: machine integers become `Nat`
(with explicit range hypotheses or truncation where overflow matters),
NEAR collections (`UnorderedMap`, `LookupMap`, `UnorderedSet`) become
functions into `Option` and duplicate-free lists, and panicking code
returns `Option`/`Except`.  A panic inside a NEAR entry point reverts
the whole invocation, so at the level of operation sequences a failing
operation leaves the contract state unchanged.
-/

namespace Mintgate

/-! ## Fraction (`src/mg-core/src/lib.rs`, lines 26-44)

`Fraction` holds two `u32` fields.  We embed the values as `Nat`;
theorems about `Fraction` carry the `u32`/`u128` range hypotheses
explicitly where they matter.
-/

/-- Embeds the `Fraction` struct: a numerator and denominator, both `u32`. -/
structure Fraction where
  num : Nat
  den : Nat
deriving DecidableEq

/-- Fixed text of the zero-denominator assertion in `Fraction::new`. -/
def zeroDenMsg : String := "Denominator must be a positive number, but was 0"

/-- Fixed text of the greater-than-one assertion in `Fraction::new`. -/
def fractionLeMsg : String := "The fraction must be less or equal to 1"

/-- Panic message produced by Rust's `assert_ne!(left, right, msg)` macro
(format of the Rust toolchains contemporary with this repository, i.e.
before 1.73): the custom message is appended after the left/right
diagnostics, so the full panic message strictly contains `msg`. -/
def assertNeFailMsg (left right : Nat) (m : String) : String :=
  "assertion failed: `(left != right)`\n  left: `" ++ toString left ++
    "`,\n right: `" ++ toString right ++ "`: " ++ m

/-- Embeds `Fraction::new` (mg-core lines 33-38).  The first check is
`assert_ne!(den, 0, zeroDenMsg)` — its panic message is the `assert_ne!`
diagnostic containing `zeroDenMsg`, not the bare string.  The second is
`assert!(num <= den, fractionLeMsg)` — `assert!` with a custom message
panics with exactly that message. -/
def Fraction.new (num den : Nat) : Except String Fraction :=
  if den = 0 then .error (assertNeFailMsg den 0 zeroDenMsg)
  else if num ≤ den then .ok { num := num, den := den }
  else .error fractionLeMsg

/-- Embeds `Fraction::mult` (mg-core lines 41-43):
`(U256::from(num) * U256::from(value) / U256::from(den)).as_u128()`.
For `num < 2^32` and `value < 2^128` the product is below `2^160`, so
the 256-bit multiply and divide are the exact natural-number operations.
`U256` division panics on a zero denominator (`none`), and `as_u128`
panics — it does not truncate — when the quotient exceeds `u128::MAX`
(`none`). -/
def Fraction.mult (f : Fraction) (value : Nat) : Option Nat :=
  if f.den = 0 then none
  else
    let wide := f.num * value / f.den
    if wide < 2 ^ 128 then some wide else none

/-! ## Market data model (`src/mg-market/src/lib.rs`) -/

/-- Embeds `TokenKey(AccountId, TokenId)` (mg-market line 50):
the pair of the NFT contract account and the 64-bit token id. -/
abbrev TokenKey := String × Nat

/-- Debug rendering of `near_sdk::json_types::U64` (a one-field tuple
struct with `#[derive(Debug)]`): `U64(n)`. -/
def u64Debug (n : Nat) : String := "U64(" ++ toString n ++ ")"

/-- Embeds `impl Display for TokenKey` (mg-market lines 52-56):
`write!(f, "{}:{:?}", self.0, self.1)`.  The token id has type
`TokenId = near_sdk::json_types::U64`, and `{:?}` formats it with the
derived `Debug` instance, which renders `U64(<id>)`. -/
def TokenKey.display (k : TokenKey) : String := k.1 ++ ":" ++ u64Debug k.2

/-- Embeds the `TokenForSale` struct (mg-market lines 62-77). -/
structure TokenForSale where
  nft_contract_id : String
  token_id : Nat
  owner_id : String
  approval_id : Nat
  min_price : Nat
  gate_id : Option String
  creator_id : Option String
deriving DecidableEq

/-- Modelled from the spec: `MarketApproveMsg` lives in the part of
mg-core that is not included under `src/`; per spec §4.C it is
`ApproveMsg { min_price: U128, gate_id?: GateId, creator_id?: AccountId }`. -/
structure MarketApproveMsg where
  min_price : Nat
  gate_id : Option String
  creator_id : Option String
deriving DecidableEq

/-- Embeds the `Panics` enum of mg-market (lines 95-108); only the
variants reachable from `buy_token` are needed by the claims. -/
inductive Panics where
  | tokenKeyNotFound (token_key : TokenKey)
  | buyOwnTokenNotAllowed
  | notEnoughDepositToBuyToken
deriving DecidableEq

/-- Panic message of each `Panics` variant, per its `#[panic_msg]`
attribute; the `TokenKeyNotFound` template formats the key with
`TokenKey`'s `Display`. -/
def Panics.msg : Panics → String
  | .tokenKeyNotFound k => "Token Key `" ++ TokenKey.display k ++ "` was not found"
  | .buyOwnTokenNotAllowed => "Buyer cannot buy own token"
  | .notEnoughDepositToBuyToken => "Not enough deposit to cover token minimum price"

/-- Embeds `GAS_FOR_ROYALTIES` (mg-market line 29). -/
def GAS_FOR_ROYALTIES : Nat := 120000000000000

/-- Embeds `NO_DEPOSIT` (mg-market line 30). -/
def NO_DEPOSIT : Nat := 0

/-- The pieces of the NEAR host environment read by the market's entry
points: `env::predecessor_account_id`, `env::attached_deposit`,
`env::prepaid_gas` and `env::current_account_id`. -/
structure Env where
  predecessor_account_id : String
  attached_deposit : Nat
  prepaid_gas : Nat
  current_account_id : String

/-- Data of the outbound `nft_transfer_payout` promise created in
`buy_token` (mg-market lines 178-187): the five call arguments in
source order, then the receiving contract, the attached deposit and the
gas of the promise. -/
structure NftTransferPayoutCall where
  receiver_id : String
  token_id : Nat
  enforce_approval_id : Option Nat
  memo : Option String
  balance : Option Nat
  nft_contract_id : String
  attached_deposit : Nat
  gas : Nat
deriving DecidableEq

/-- Data of the chained `self_callback::make_payouts` promise
(mg-market lines 188-192): the account it is sent to, its attached
deposit and its gas. -/
structure SelfCallbackCall where
  account_id : String
  attached_deposit : Nat
  gas : Nat
deriving DecidableEq

/-! ## Collections

NEAR's `UnorderedMap`/`LookupMap` are embedded as functions into
`Option`, and `UnorderedSet` as a duplicate-free list; only membership
matters to the claims, so iteration order is irrelevant.
-/

/-- Point update of a map, as performed by `UnorderedMap::insert`,
`UnorderedMap::remove` and `LookupMap::insert`. -/
def mapUpd {α β : Type} [DecidableEq α] (m : α → β) (k : α) (v : β) : α → β :=
  fun k' => if k' = k then v else m k'

/-- Embeds `UnorderedSet::insert`: a no-op when the element is already
present. -/
def setInsert {T : Type} [DecidableEq T] (l : List T) (x : T) : List T :=
  if x ∈ l then l else l ++ [x]

/-- Embeds the effect of `UnorderedSet::remove` on the elements: the
element is no longer present, all others are untouched (a NEAR
`UnorderedSet` never holds duplicates). -/
def setRemove {T : Type} [DecidableEq T] (l : List T) (x : T) : List T :=
  l.filter (fun y => decide (y ≠ x))

/-- Elements of the set stored in a `LookupMap` under `k`; an absent
set reads as empty. -/
def lkup {T : Type} (m : String → Option (List T)) (k : String) : List T :=
  (m k).getD []

/-- Embeds `insert_token_id_to` (mg-market lines 357-366): read the set
under `key` (creating an empty one if absent), insert `token_key`, and
write it back. -/
def insert_token_id_to {T : Type} [DecidableEq T]
    (tokens_map : String → Option (List T)) (key : String) (token_key : T) :
    String → Option (List T) :=
  let tids := (tokens_map key).getD []
  mapUpd tokens_map key (some (setInsert tids token_key))

/-- Embeds `remove_token_id_from` (mg-market lines 381-397): a missing
set or a missing element panics (`none`); otherwise the element is
removed and the set written back. -/
def remove_token_id_from {T : Type} [DecidableEq T]
    (tokens_map : String → Option (List T)) (key : String) (token_key : T) :
    Option (String → Option (List T)) :=
  match tokens_map key with
  | none => none
  | some tids =>
      if token_key ∈ tids then
        some (mapUpd tokens_map key (some (setRemove tids token_key)))
      else none

/-! ## The market contract state and operations -/

/-- Embeds the `MarketContract` state (mg-market lines 34-45): the
primary listing map and the four secondary indices. -/
structure MarketContract where
  tokens_for_sale : TokenKey → Option TokenForSale
  tokens_by_nft_id : String → Option (List Nat)
  tokens_by_gate_id : String → Option (List TokenKey)
  tokens_by_owner_id : String → Option (List TokenKey)
  tokens_by_creator_id : String → Option (List TokenKey)

/-- Embeds `MarketContract::init` (mg-market lines 117-125): every map
starts empty. -/
def MarketContract.init : MarketContract where
  tokens_for_sale := fun _ => none
  tokens_by_nft_id := fun _ => none
  tokens_by_gate_id := fun _ => none
  tokens_by_owner_id := fun _ => none
  tokens_by_creator_id := fun _ => none

/-- Embeds `MarketContract::add_token` (mg-market lines 304-355):
overwrite the primary entry, then insert into the by-nft and by-owner
indices, and into the by-gate / by-creator indices when the message
carries the corresponding optional field.  Nothing is removed from any
index. -/
def MarketContract.add_token (self : MarketContract) (owner_id : String)
    (nft_contract_id : String) (token_id : Nat) (approve_msg : MarketApproveMsg)
    (approval_id : Nat) : MarketContract :=
  let token_key : TokenKey := (nft_contract_id, token_id)
  { tokens_for_sale := mapUpd self.tokens_for_sale token_key (some
      { nft_contract_id := nft_contract_id
        token_id := token_id
        owner_id := owner_id
        approval_id := approval_id
        min_price := approve_msg.min_price
        gate_id := approve_msg.gate_id
        creator_id := approve_msg.creator_id })
    tokens_by_nft_id := insert_token_id_to self.tokens_by_nft_id nft_contract_id token_id
    tokens_by_owner_id := insert_token_id_to self.tokens_by_owner_id owner_id token_key
    tokens_by_gate_id :=
      match approve_msg.gate_id with
      | some gate_id => insert_token_id_to self.tokens_by_gate_id gate_id token_key
      | none => self.tokens_by_gate_id
    tokens_by_creator_id :=
      match approve_msg.creator_id with
      | some creator_id => insert_token_id_to self.tokens_by_creator_id creator_id token_key
      | none => self.tokens_by_creator_id }

/-- Removal from an optionally-present index, embedding the
`if let Some(gate_id) = gate_id { remove_token_id_from(...) }` blocks
of `remove_token_id` (mg-market lines 208-218). -/
def removeOptIndex (m : String → Option (List TokenKey)) (key : Option String)
    (token_key : TokenKey) : Option (String → Option (List TokenKey)) :=
  match key with
  | some k => remove_token_id_from m k token_key
  | none => some m

/-- Embeds `MarketContract::remove_token_id` (mg-market lines 198-219):
remove the primary entry, then the token id from the by-nft index, the
key from the by-owner index, and from the by-gate / by-creator indices
when the corresponding field is present.  Any missing index entry
panics (`none`); the NEAR host then reverts the whole invocation. -/
def MarketContract.remove_token_id (self : MarketContract) (token_key : TokenKey)
    (owner_id : String) (gate_id : Option String) (creator_id : Option String) :
    Option MarketContract :=
  match remove_token_id_from self.tokens_by_nft_id token_key.1 token_key.2 with
  | none => none
  | some by_nft =>
    match remove_token_id_from self.tokens_by_owner_id owner_id token_key with
    | none => none
    | some by_owner =>
      match removeOptIndex self.tokens_by_gate_id gate_id token_key with
      | none => none
      | some by_gate =>
        match removeOptIndex self.tokens_by_creator_id creator_id token_key with
        | none => none
        | some by_creator =>
          some { tokens_for_sale := mapUpd self.tokens_for_sale token_key none
                 tokens_by_nft_id := by_nft
                 tokens_by_owner_id := by_owner
                 tokens_by_gate_id := by_gate
                 tokens_by_creator_id := by_creator }

/-- Embeds `MarketContract::buy_token` (mg-market lines 160-196).
The listing is looked up; an absent key, a buyer who owns the listing,
or an insufficient deposit panic (`Except.error`), reverting the
invocation.  Otherwise the listing is removed from the primary map and
all applicable indices, and only then are the outbound
`nft_transfer_payout` promise and the chained `make_payouts`
self-callback returned, reflecting the source order in which removal
precedes promise creation. -/
def MarketContract.buy_token (self : MarketContract) (env : Env)
    (nft_contract_id : String) (token_id : Nat) :
    Except Panics (MarketContract × NftTransferPayoutCall × SelfCallbackCall) :=
  let token_key : TokenKey := (nft_contract_id, token_id)
  match self.tokens_for_sale token_key with
  | some token =>
    let buyer_id := env.predecessor_account_id
    if buyer_id = token.owner_id then .error .buyOwnTokenNotAllowed
    else
      let deposit := env.attached_deposit
      if deposit < token.min_price then .error .notEnoughDepositToBuyToken
      else
        match self.remove_token_id token_key token.owner_id token.gate_id token.creator_id with
        | none => .error (.tokenKeyNotFound token_key)
        | some self' =>
          .ok (self',
            { receiver_id := buyer_id
              token_id := token_id
              enforce_approval_id := none
              memo := none
              balance := some deposit
              nft_contract_id := nft_contract_id
              attached_deposit := 0
              gas := env.prepaid_gas / 3 },
            { account_id := env.current_account_id
              attached_deposit := NO_DEPOSIT
              gas := GAS_FOR_ROYALTIES })
  | none => .error (.tokenKeyNotFound token_key)

/-- Embeds `nft_on_approve` (mg-market lines 256-274) after successful
parsing of `msg` (a parse failure panics without touching the book, so
it is invisible at the level of state sequences): the predecessor is
adopted as the NFT contract id and `add_token` is called. -/
def MarketContract.nft_on_approve (self : MarketContract) (predecessor : String)
    (token_id : Nat) (owner_id : String) (approval_id : Nat)
    (approve_msg : MarketApproveMsg) : MarketContract :=
  self.add_token owner_id predecessor token_id approve_msg approval_id

/-- Embeds `nft_on_revoke` (mg-market lines 277-287): the predecessor
is the NFT contract id; an absent listing panics, the recorded
`nft_contract_id` is asserted to equal the predecessor, and the listing
is removed. -/
def MarketContract.nft_on_revoke (self : MarketContract) (predecessor : String)
    (token_id : Nat) : Option MarketContract :=
  let token_key : TokenKey := (predecessor, token_id)
  match self.tokens_for_sale token_key with
  | some token =>
      if token.nft_contract_id = token_key.1 then
        self.remove_token_id token_key token.owner_id token.gate_id token.creator_id
      else none
  | none => none

/-- Embeds `batch_on_approve` (mg-market lines 290-300): `add_token`
for each pair, with approval id `0`. -/
def MarketContract.batch_on_approve (self : MarketContract) (predecessor : String)
    (tokens : List (Nat × MarketApproveMsg)) (owner_id : String) : MarketContract :=
  tokens.foldl (fun s p => s.add_token owner_id predecessor p.1 p.2 0) self

/-! ## The payout callback -/

/-- Modelled from the spec: `Payout` is defined in the part of mg-core
not included under `src/`; per the spec (§4.E, glossary) it is a
mapping from recipient account ids to `u128` amounts, embedded as an
association list. -/
abbrev Payout := List (String × Nat)

/-- The promise result inspected by `make_payouts`
(`env::promise_result(0)`).  A successful result carries the bytes
returned by `nft_transfer_payout`; their `serde_json` parse is embedded
as `Option Payout` (`none` = parse failure). -/
inductive PromiseResult where
  | notReady
  | failed
  | successful (value : Option Payout)

/-- The ways `make_payouts` can panic: the `#[private]` guard, or one
of the `unreachable!()` arms. -/
inductive CallbackPanic where
  | privateMethod
  | unreachableCode
deriving DecidableEq

/-- Embeds `SelfCallback::make_payouts` (mg-market lines 230-246).
The `#[private]` attribute makes `near_bindgen` emit, at the very top
of the generated method body — before `env::promise_result` is read —
a check that the predecessor equals the current account, panicking
otherwise.  `NotReady` and `Failed` results, and a result whose bytes
fail to parse as a `Payout`, hit `unreachable!()`, which panics.  On a
parsed payout, one transfer per entry is issued; the returned list is
the list of issued transfers. -/
def make_payouts (env : Env) (result : PromiseResult) :
    Except CallbackPanic Payout :=
  if env.predecessor_account_id ≠ env.current_account_id then .error .privateMethod
  else
    match result with
    | .notReady => .error .unreachableCode
    | .failed => .error .unreachableCode
    | .successful none => .error .unreachableCode
    | .successful (some payout) => .ok payout

/-! ## Sequences of listing-book operations

The four mutating entry points, applied with NEAR's revert semantics:
a panicking invocation leaves the persisted state unchanged.
-/

/-- One invocation of a mutating market entry point, with the host
environment data it reads. -/
inductive MarketOp where
  | onApprove (predecessor : String) (token_id : Nat) (owner_id : String)
      (approval_id : Nat) (approve_msg : MarketApproveMsg)
  | batchOnApprove (predecessor : String) (tokens : List (Nat × MarketApproveMsg))
      (owner_id : String)
  | onRevoke (predecessor : String) (token_id : Nat)
  | buyToken (predecessor : String) (deposit : Nat) (nft_contract_id : String)
      (token_id : Nat)

/-- Applies one entry-point invocation to the persisted state.  A panic
(`none` / `Except.error`) reverts the invocation, so the state is
returned unchanged; `buy_token`'s prepaid gas and current account do
not influence the book, so arbitrary values are supplied. -/
def applyOp (s : MarketContract) : MarketOp → MarketContract
  | .onApprove pred tid owner aid msg => s.nft_on_approve pred tid owner aid msg
  | .batchOnApprove pred toks owner => s.batch_on_approve pred toks owner
  | .onRevoke pred tid => (s.nft_on_revoke pred tid).getD s
  | .buyToken pred dep nft tid =>
      match s.buy_token
          { predecessor_account_id := pred
            attached_deposit := dep
            prepaid_gas := 0
            current_account_id := "" } nft tid with
      | .ok (s', _, _) => s'
      | .error _ => s

/-- Runs a sequence of entry-point invocations. -/
def runOps (s : MarketContract) (ops : List MarketOp) : MarketContract :=
  ops.foldl applyOp s

/-- An insert is compatible with the current book when its key is fresh
or the listing it overwrites carries the same owner, gate and creator:
the re-listing may change only `min_price` and `approval_id`. -/
def compatInsert (s : MarketContract) (nft_contract_id : String) (token_id : Nat)
    (owner_id : String) (approve_msg : MarketApproveMsg) : Bool :=
  match s.tokens_for_sale (nft_contract_id, token_id) with
  | none => true
  | some L =>
      decide (L.owner_id = owner_id ∧ L.gate_id = approve_msg.gate_id ∧
        L.creator_id = approve_msg.creator_id)

/-- Compatibility of every insert of a batch, against the book as it
evolves through the batch. -/
def goodBatch (s : MarketContract) (pred owner : String) :
    List (Nat × MarketApproveMsg) → Bool
  | [] => true
  | (tid, msg) :: rest =>
      compatInsert s pred tid owner msg &&
        goodBatch (s.add_token owner pred tid msg 0) pred owner rest

/-- An operation is good when every insert it performs is compatible;
revocations and buys are always good. -/
def goodOp (s : MarketContract) : MarketOp → Bool
  | .onApprove pred tid owner _ msg => compatInsert s pred tid owner msg
  | .batchOnApprove pred toks owner => goodBatch s pred owner toks
  | .onRevoke _ _ => true
  | .buyToken _ _ _ _ => true

/-- Goodness of a whole sequence, each operation judged against the
state it actually runs in. -/
def goodOps : MarketContract → List MarketOp → Bool
  | _, [] => true
  | s, op :: rest => goodOp s op && goodOps (applyOp s op) rest

/-! ## The book invariants

`marketInv` renders the spec's I1-I4 and the "exactly the implied
index sets" property.  The five clauses after the first two: I1 in both
directions for the by-nft and by-owner indices, and I2/I3 ("the implied
set contains the key, no other set does, and no dangling entries") for
the by-gate and by-creator indices.  I4 (no two listings share a
`TokenKey`) is the first clause; it is automatic because the primary
map is keyed by `TokenKey`.
-/

/-- Invariants I1-I4 of the listing book, plus the denormalized-field
consistency used by `nft_on_revoke`'s assertion. -/
def marketInv (s : MarketContract) : Prop :=
  (∀ k L₁ L₂, s.tokens_for_sale k = some L₁ → s.tokens_for_sale k = some L₂ → L₁ = L₂) ∧
  (∀ a t L, s.tokens_for_sale (a, t) = some L → L.nft_contract_id = a ∧ L.token_id = t) ∧
  (∀ a t, t ∈ lkup s.tokens_by_nft_id a ↔ ∃ L, s.tokens_for_sale (a, t) = some L) ∧
  (∀ k o, k ∈ lkup s.tokens_by_owner_id o ↔
    ∃ L, s.tokens_for_sale k = some L ∧ L.owner_id = o) ∧
  (∀ k g, k ∈ lkup s.tokens_by_gate_id g ↔
    ∃ L, s.tokens_for_sale k = some L ∧ L.gate_id = some g) ∧
  (∀ k c, k ∈ lkup s.tokens_by_creator_id c ↔
    ∃ L, s.tokens_for_sale k = some L ∧ L.creator_id = some c)

/-- The listing written by `add_token`. -/
def newListing (owner nft : String) (tid : Nat) (msg : MarketApproveMsg)
    (aid : Nat) : TokenForSale where
  nft_contract_id := nft
  token_id := tid
  owner_id := owner
  approval_id := aid
  min_price := msg.min_price
  gate_id := msg.gate_id
  creator_id := msg.creator_id

/-- A sequence re-listing `(N, 42)` with the gate field dropped: the
stale by-gate entry survives the overwrite. -/
def relistOps : List MarketOp :=
  [.onApprove "N" 42 "alice" 7 ⟨1000, some "G1", some "carol"⟩,
   .onApprove "N" 42 "alice" 8 ⟨2000, none, none⟩]

/-- The book after approving `(N, 42, alice, 7)` with gate `G1` and
creator `carol` and then re-approving it as
`nft_on_approve(42, alice, 8, min_price 2000, no gate, no creator)`. -/
def relistState : MarketContract :=
  (MarketContract.init.nft_on_approve "N" 42 "alice" 7
    ⟨1000, some "G1", some "carol"⟩).nft_on_approve "N" 42 "alice" 8 ⟨2000, none, none⟩

theorem mapUpd_same {α β : Type} [DecidableEq α] (m : α → β) (k : α) (v : β) :
    mapUpd m k v k = v := by
  simp [mapUpd]

theorem mapUpd_other {α β : Type} [DecidableEq α] (m : α → β) (k k' : α) (v : β)
    (h : k' ≠ k) : mapUpd m k v k' = m k' := by
  simp [mapUpd, h]

theorem mem_setInsert {T : Type} [DecidableEq T] (l : List T) (x y : T) :
    y ∈ setInsert l x ↔ y ∈ l ∨ y = x := by
  unfold setInsert
  by_cases h : x ∈ l
  · rw [if_pos h]
    constructor
    · exact Or.inl
    · rintro (hy | rfl)
      · exact hy
      · exact h
  · rw [if_neg h]
    simp [List.mem_append]

theorem mem_setRemove {T : Type} [DecidableEq T] (l : List T) (x y : T) :
    y ∈ setRemove l x ↔ y ∈ l ∧ y ≠ x := by
  simp [setRemove, List.mem_filter]

theorem mem_lkup_insert_token_id_to {T : Type} [DecidableEq T]
    (m : String → Option (List T)) (key k : String) (x y : T) :
    y ∈ lkup (insert_token_id_to m key x) k ↔ y ∈ lkup m k ∨ (k = key ∧ y = x) := by
  unfold insert_token_id_to lkup
  by_cases h : k = key
  · subst h
    rw [mapUpd_same]
    simp [mem_setInsert, lkup]
  · rw [mapUpd_other _ _ _ _ h]
    simp [h]

theorem remove_token_id_from_of_mem {T : Type} [DecidableEq T]
    (m : String → Option (List T)) (key : String) (x : T)
    (h : x ∈ lkup m key) :
    ∃ m', remove_token_id_from m key x = some m' ∧
      ∀ k y, y ∈ lkup m' k ↔ y ∈ lkup m k ∧ ¬(k = key ∧ y = x) := by
  unfold lkup at h
  cases hm : m key with
  | none => rw [hm] at h; simp at h
  | some tids =>
    rw [hm] at h
    simp only [Option.getD_some] at h
    refine ⟨mapUpd m key (some (setRemove tids x)), ?_, fun k y => ?_⟩
    · simp [remove_token_id_from, hm, h]
    · by_cases hk : k = key
      · subst hk
        rw [lkup, mapUpd_same]
        simp [mem_setRemove, lkup, hm]
      · rw [lkup, mapUpd_other _ _ _ _ hk]
        simp [lkup, hk]

theorem marketInv_init : marketInv MarketContract.init := by
  refine ⟨?_, ?_, ?_, ?_, ?_, ?_⟩ <;> intros <;> simp_all [MarketContract.init, lkup]

/-! ## Preservation of the invariants -/

theorem add_token_tokens_for_sale (s : MarketContract) (owner nft : String)
    (tid : Nat) (msg : MarketApproveMsg) (aid : Nat) :
    (s.add_token owner nft tid msg aid).tokens_for_sale =
      mapUpd s.tokens_for_sale (nft, tid) (some (newListing owner nft tid msg aid)) := rfl

theorem add_token_tokens_by_nft_id (s : MarketContract) (owner nft : String)
    (tid : Nat) (msg : MarketApproveMsg) (aid : Nat) :
    (s.add_token owner nft tid msg aid).tokens_by_nft_id =
      insert_token_id_to s.tokens_by_nft_id nft tid := rfl

theorem add_token_tokens_by_owner_id (s : MarketContract) (owner nft : String)
    (tid : Nat) (msg : MarketApproveMsg) (aid : Nat) :
    (s.add_token owner nft tid msg aid).tokens_by_owner_id =
      insert_token_id_to s.tokens_by_owner_id owner (nft, tid) := rfl

theorem add_token_tokens_by_gate_id (s : MarketContract) (owner nft : String)
    (tid : Nat) (msg : MarketApproveMsg) (aid : Nat) :
    (s.add_token owner nft tid msg aid).tokens_by_gate_id =
      match msg.gate_id with
      | some gate_id => insert_token_id_to s.tokens_by_gate_id gate_id (nft, tid)
      | none => s.tokens_by_gate_id := rfl

theorem add_token_tokens_by_creator_id (s : MarketContract) (owner nft : String)
    (tid : Nat) (msg : MarketApproveMsg) (aid : Nat) :
    (s.add_token owner nft tid msg aid).tokens_by_creator_id =
      match msg.creator_id with
      | some creator_id => insert_token_id_to s.tokens_by_creator_id creator_id (nft, tid)
      | none => s.tokens_by_creator_id := rfl

theorem compatInsert_spec (s : MarketContract) (nft : String) (tid : Nat)
    (owner : String) (msg : MarketApproveMsg)
    (hc : compatInsert s nft tid owner msg = true) :
    ∀ L, s.tokens_for_sale (nft, tid) = some L →
      L.owner_id = owner ∧ L.gate_id = msg.gate_id ∧ L.creator_id = msg.creator_id := by
  intro L hL
  unfold compatInsert at hc
  rw [hL] at hc
  exact of_decide_eq_true hc

/-- The heart of the I1-I4 preservation argument for inserts: an insert
whose key is fresh, or which only changes `min_price`/`approval_id` of
the listing it overwrites, keeps the book invariants. -/
theorem add_token_preserves (s : MarketContract) (owner nft : String) (tid : Nat)
    (msg : MarketApproveMsg) (aid : Nat) (hinv : marketInv s)
    (hc : compatInsert s nft tid owner msg = true) :
    marketInv (s.add_token owner nft tid msg aid) := by
  obtain ⟨-, icons, inft, iown, igate, icreator⟩ := hinv
  have hcompat := compatInsert_spec s nft tid owner msg hc
  refine ⟨?_, ?_, ?_, ?_, ?_, ?_⟩
  · intro k L₁ L₂ h1 h2
    exact Option.some.inj (h1.symm.trans h2)
  · intro a t L hL
    rw [add_token_tokens_for_sale] at hL
    by_cases h : ((a, t) : TokenKey) = (nft, tid)
    · rw [h, mapUpd_same] at hL
      rw [Prod.mk.injEq] at h
      obtain ⟨ha, ht⟩ := h
      cases hL
      exact ⟨ha.symm, ht.symm⟩
    · rw [mapUpd_other _ _ _ _ h] at hL
      exact icons a t L hL
  · intro a t
    rw [add_token_tokens_for_sale, add_token_tokens_by_nft_id,
      mem_lkup_insert_token_id_to]
    by_cases h : ((a, t) : TokenKey) = (nft, tid)
    · rw [Prod.mk.injEq] at h
      obtain ⟨ha, ht⟩ := h
      subst ha; subst ht
      rw [mapUpd_same]
      simp [inft]
    · have h' : ¬(a = nft ∧ t = tid) := by
        rw [Prod.mk.injEq] at h; exact h
      rw [mapUpd_other _ _ _ _ h]
      simp [inft, h']
  · intro k o
    rw [add_token_tokens_for_sale, add_token_tokens_by_owner_id,
      mem_lkup_insert_token_id_to, iown]
    by_cases hk : k = ((nft, tid) : TokenKey)
    · subst hk
      rw [mapUpd_same]
      cases hp : s.tokens_for_sale (nft, tid) with
      | none =>
        simp only [hp]
        simp [newListing, eq_comm]
      | some L₀ =>
        obtain ⟨ho, -, -⟩ := hcompat L₀ hp
        simp only [hp]
        simp [newListing, ho, eq_comm]
    · rw [mapUpd_other _ _ _ _ hk]
      simp [hk]
  · intro k g
    rw [add_token_tokens_for_sale, add_token_tokens_by_gate_id]
    cases hmsg : msg.gate_id with
    | none =>
      rw [igate]
      by_cases hk : k = ((nft, tid) : TokenKey)
      · subst hk
        rw [mapUpd_same]
        cases hp : s.tokens_for_sale (nft, tid) with
        | none => simp [hp, newListing, hmsg]
        | some L₀ =>
          obtain ⟨-, hg, -⟩ := hcompat L₀ hp
          have hg' : L₀.gate_id = none := hg.trans hmsg
          simp [hp, newListing, hmsg, hg']
      · rw [mapUpd_other _ _ _ _ hk]
    | some g₀ =>
      rw [mem_lkup_insert_token_id_to, igate]
      by_cases hk : k = ((nft, tid) : TokenKey)
      · subst hk
        rw [mapUpd_same]
        cases hp : s.tokens_for_sale (nft, tid) with
        | none =>
          simp [hp, newListing, hmsg, eq_comm]
        | some L₀ =>
          obtain ⟨-, hg, -⟩ := hcompat L₀ hp
          have hg' : L₀.gate_id = some g₀ := hg.trans hmsg
          simp [hp, newListing, hmsg, hg', eq_comm]
      · rw [mapUpd_other _ _ _ _ hk]
        simp [hk]
  · intro k c
    rw [add_token_tokens_for_sale, add_token_tokens_by_creator_id]
    cases hmsg : msg.creator_id with
    | none =>
      rw [icreator]
      by_cases hk : k = ((nft, tid) : TokenKey)
      · subst hk
        rw [mapUpd_same]
        cases hp : s.tokens_for_sale (nft, tid) with
        | none => simp [hp, newListing, hmsg]
        | some L₀ =>
          obtain ⟨-, -, hcr⟩ := hcompat L₀ hp
          have hcr' : L₀.creator_id = none := hcr.trans hmsg
          simp [hp, newListing, hmsg, hcr']
      · rw [mapUpd_other _ _ _ _ hk]
    | some c₀ =>
      rw [mem_lkup_insert_token_id_to, icreator]
      by_cases hk : k = ((nft, tid) : TokenKey)
      · subst hk
        rw [mapUpd_same]
        cases hp : s.tokens_for_sale (nft, tid) with
        | none =>
          simp [hp, newListing, hmsg, eq_comm]
        | some L₀ =>
          obtain ⟨-, -, hcr⟩ := hcompat L₀ hp
          have hcr' : L₀.creator_id = some c₀ := hcr.trans hmsg
          simp [hp, newListing, hmsg, hcr', eq_comm]
      · rw [mapUpd_other _ _ _ _ hk]
        simp [hk]

theorem removeOptIndex_of_mem (m : String → Option (List TokenKey))
    (gid : Option String) (k : TokenKey)
    (h : ∀ g, gid = some g → k ∈ lkup m g) :
    ∃ m', removeOptIndex m gid k = some m' ∧
      ∀ g y, y ∈ lkup m' g ↔ y ∈ lkup m g ∧ ¬(gid = some g ∧ y = k) := by
  cases gid with
  | none => exact ⟨m, rfl, by simp⟩
  | some g₀ =>
    obtain ⟨m', hm', hmem⟩ := remove_token_id_from_of_mem m g₀ k (h g₀ rfl)
    refine ⟨m', hm', fun g y => ?_⟩
    rw [hmem]
    simp [eq_comm]

/-- The heart of the I1-I4 preservation argument for removals: from an
invariant-satisfying book, removing a present listing (with the index
keys read off that listing, as all call sites do) succeeds and keeps
the invariants, and the primary map loses exactly that key. -/
theorem remove_token_id_spec (s : MarketContract) (k : TokenKey) (L : TokenForSale)
    (hinv : marketInv s) (hL : s.tokens_for_sale k = some L) :
    ∃ s', s.remove_token_id k L.owner_id L.gate_id L.creator_id = some s' ∧
      marketInv s' ∧
      s'.tokens_for_sale = mapUpd s.tokens_for_sale k none := by
  obtain ⟨-, icons, inft, iown, igate, icreator⟩ := hinv
  have hL' : s.tokens_for_sale (k.1, k.2) = some L := by rw [Prod.mk.eta]; exact hL
  have hn : k.2 ∈ lkup s.tokens_by_nft_id k.1 := (inft k.1 k.2).2 ⟨L, hL'⟩
  have ho : k ∈ lkup s.tokens_by_owner_id L.owner_id := (iown k L.owner_id).2 ⟨L, hL, rfl⟩
  obtain ⟨mn, hmn, hmem_n⟩ := remove_token_id_from_of_mem _ _ _ hn
  obtain ⟨mo, hmo, hmem_o⟩ := remove_token_id_from_of_mem _ _ _ ho
  obtain ⟨mg, hmg, hmem_g⟩ := removeOptIndex_of_mem s.tokens_by_gate_id L.gate_id k
    (fun g hg => (igate k g).2 ⟨L, hL, hg⟩)
  obtain ⟨mc, hmc, hmem_c⟩ := removeOptIndex_of_mem s.tokens_by_creator_id L.creator_id k
    (fun c hc => (icreator k c).2 ⟨L, hL, hc⟩)
  refine ⟨{ tokens_for_sale := mapUpd s.tokens_for_sale k none
            tokens_by_nft_id := mn
            tokens_by_owner_id := mo
            tokens_by_gate_id := mg
            tokens_by_creator_id := mc }, ?_, ?_, rfl⟩
  · simp only [MarketContract.remove_token_id, hmn, hmo, hmg, hmc]
  · refine ⟨?_, ?_, ?_, ?_, ?_, ?_⟩
    · intro k' L₁ L₂ h1 h2
      exact Option.some.inj (h1.symm.trans h2)
    · intro a t L' hL2
      dsimp only at hL2
      by_cases h : ((a, t) : TokenKey) = k
      · rw [h, mapUpd_same] at hL2
        cases hL2
      · rw [mapUpd_other _ _ _ _ h] at hL2
        exact icons a t L' hL2
    · intro a t
      dsimp only
      rw [hmem_n]
      by_cases h : ((a, t) : TokenKey) = k
      · have h2 : a = k.1 ∧ t = k.2 := by rw [← h]; exact ⟨rfl, rfl⟩
        rw [h, mapUpd_same]
        simp [h2]
      · have h2 : ¬(a = k.1 ∧ t = k.2) := by rw [Prod.ext_iff] at h; exact h
        rw [mapUpd_other _ _ _ _ h]
        simp [h2, inft]
    · intro k' o
      dsimp only
      rw [hmem_o]
      by_cases h : k' = k
      · subst h
        rw [mapUpd_same, iown]
        simp [hL, eq_comm]
      · rw [mapUpd_other _ _ _ _ h, iown]
        simp [h]
    · intro k' g
      dsimp only
      rw [hmem_g]
      by_cases h : k' = k
      · subst h
        rw [mapUpd_same, igate]
        simp [hL]
      · rw [mapUpd_other _ _ _ _ h, igate]
        simp [h]
    · intro k' c
      dsimp only
      rw [hmem_c]
      by_cases h : k' = k
      · subst h
        rw [mapUpd_same, icreator]
        simp [hL]
      · rw [mapUpd_other _ _ _ _ h, icreator]
        simp [h]

theorem nft_on_revoke_preserves (s : MarketContract) (pred : String) (tid : Nat)
    (hinv : marketInv s) : marketInv ((s.nft_on_revoke pred tid).getD s) := by
  cases hp : s.tokens_for_sale (pred, tid) with
  | none =>
    simp only [MarketContract.nft_on_revoke, hp, Option.getD_none]
    exact hinv
  | some token =>
    have hcons : token.nft_contract_id = pred := (hinv.2.1 pred tid token hp).1
    obtain ⟨s', hs', hinv', -⟩ := remove_token_id_spec s (pred, tid) token hinv hp
    simp only [MarketContract.nft_on_revoke, hp, hcons, if_pos rfl, hs', Option.getD_some]
    exact hinv'

theorem batch_on_approve_cons (s : MarketContract) (pred owner : String) (tid : Nat)
    (msg : MarketApproveMsg) (rest : List (Nat × MarketApproveMsg)) :
    s.batch_on_approve pred ((tid, msg) :: rest) owner =
      (s.add_token owner pred tid msg 0).batch_on_approve pred rest owner := rfl

theorem batch_on_approve_preserves (pred owner : String)
    (toks : List (Nat × MarketApproveMsg)) :
    ∀ s : MarketContract, marketInv s → goodBatch s pred owner toks = true →
      marketInv (s.batch_on_approve pred toks owner) := by
  induction toks with
  | nil => intro s hinv _; exact hinv
  | cons p rest ih =>
    intro s hinv hg
    obtain ⟨tid, msg⟩ := p
    simp only [goodBatch, Bool.and_eq_true] at hg
    rw [batch_on_approve_cons]
    exact ih _ (add_token_preserves s owner pred tid msg 0 hinv hg.1) hg.2

theorem buy_token_step_preserves (s : MarketContract) (pred : String) (dep : Nat)
    (nft : String) (tid : Nat) (hinv : marketInv s) :
    marketInv (applyOp s (.buyToken pred dep nft tid)) := by
  simp only [applyOp]
  cases hp : s.tokens_for_sale (nft, tid) with
  | none =>
    simp only [MarketContract.buy_token, hp]
    exact hinv
  | some token =>
    by_cases hb : pred = token.owner_id
    · simp only [MarketContract.buy_token, hp, hb, if_pos rfl]
      exact hinv
    · by_cases hd : dep < token.min_price
      · simp only [MarketContract.buy_token, hp, if_neg hb, if_pos hd]
        exact hinv
      · obtain ⟨s', hs', hinv', -⟩ := remove_token_id_spec s (nft, tid) token hinv hp
        simp only [MarketContract.buy_token, hp, if_neg hb, if_neg hd, hs']
        exact hinv'

theorem applyOp_preserves (s : MarketContract) (op : MarketOp)
    (hinv : marketInv s) (hg : goodOp s op = true) :
    marketInv (applyOp s op) := by
  cases op with
  | onApprove pred tid owner aid msg =>
    exact add_token_preserves s owner pred tid msg aid hinv hg
  | batchOnApprove pred toks owner =>
    exact batch_on_approve_preserves pred owner toks s hinv hg
  | onRevoke pred tid =>
    exact nft_on_revoke_preserves s pred tid hinv
  | buyToken pred dep nft tid =>
    exact buy_token_step_preserves s pred dep nft tid hinv

/-- Good sequences (those whose re-listings touch only `min_price` and
`approval_id`) preserve the book invariants. -/
theorem goodOps_inv (ops : List MarketOp) :
    ∀ s : MarketContract, marketInv s → goodOps s ops = true →
      marketInv (runOps s ops) := by
  induction ops with
  | nil => intro s hinv _; exact hinv
  | cons op rest ih =>
    intro s hinv hg
    simp only [goodOps, Bool.and_eq_true] at hg
    rw [runOps, List.foldl_cons]
    exact ih _ (applyOp_preserves s op hinv hg.1) hg.2

theorem Fraction.mult_eq (num den v : Nat) (hden : den ≠ 0)
    (hq : num * v / den < 2 ^ 128) :
    Fraction.mult { num := num, den := den } v = some (num * v / den) := by
  unfold Fraction.mult
  dsimp only
  rw [if_neg hden, if_pos hq]

theorem mult_quotient_le (num den v : Nat) (hden : den ≠ 0) (hnd : num ≤ den) :
    num * v / den ≤ v := by
  calc num * v / den ≤ den * v / den := Nat.div_le_div_right (Nat.mul_le_mul_right v hnd)
  _ = v := Nat.mul_div_cancel_left v (Nat.pos_of_ne_zero hden)

/-- C8: for every u32 pair `(num, den)` with `den ≠ 0` and `num ≤ den`
and every u128 value `v`, `Fraction{num, den}.mult(v)` returns exactly
`⌊num * v / den⌋`, computed without overflow in the 256-bit
intermediate arithmetic; consequently `Fraction(1, 2).mult(v) = v / 2`
and the result is invariant under scaling `num` and `den` by any
(positive) `k` with `k * den` still fitting in u32. -/
theorem C8_fraction_mult_exact (num den v : Nat) (hden : den ≠ 0) (hnd : num ≤ den)
    (hden32 : den < 2 ^ 32) (hv : v < 2 ^ 128) :
    Fraction.mult { num := num, den := den } v = some (num * v / den) ∧
    Fraction.mult { num := 1, den := 2 } v = some (v / 2) ∧
    ∀ k, 0 < k → k * den < 2 ^ 32 →
      Fraction.mult { num := k * num, den := k * den } v =
        Fraction.mult { num := num, den := den } v := by
  have h1 := Fraction.mult_eq num den v hden
    (lt_of_le_of_lt (mult_quotient_le num den v hden hnd) hv)
  refine ⟨h1, ?_, ?_⟩
  · have h2 := Fraction.mult_eq 1 2 v (by decide)
      (lt_of_le_of_lt (mult_quotient_le 1 2 v (by decide) (by decide)) hv)
    rw [h2, one_mul]
  · intro k hk hk32
    have hkden : k * den ≠ 0 := Nat.mul_ne_zero (Nat.pos_iff_ne_zero.mp hk) hden
    have hquot : k * num * v / (k * den) = num * v / den := by
      rw [mul_assoc, Nat.mul_div_mul_left _ _ hk]
    have h3 := Fraction.mult_eq (k * num) (k * den) v hkden
      (by rw [hquot]; exact lt_of_le_of_lt (mult_quotient_le num den v hden hnd) hv)
    rw [h3, hquot, h1]

/-- C8 witness: the theorem applied at `num = 3`, `den = 7`, `v = 1000`. -/
theorem C8_fraction_mult_exact_witness :
    ((7 : Nat) ≠ 0 ∧ (3 : Nat) ≤ 7 ∧ (7 : Nat) < 2 ^ 32 ∧ (1000 : Nat) < 2 ^ 128) ∧
    (Fraction.mult { num := 3, den := 7 } 1000 = some (3 * 1000 / 7) ∧
     Fraction.mult { num := 1, den := 2 } 1000 = some (1000 / 2) ∧
     ∀ k, 0 < k → k * 7 < 2 ^ 32 →
       Fraction.mult { num := k * 3, den := k * 7 } 1000 =
         Fraction.mult { num := 3, den := 7 } 1000) :=
  ⟨⟨by decide, by decide, by decide, by decide⟩,
   C8_fraction_mult_exact 3 7 1000 (by decide) (by decide) (by decide) (by decide)⟩

/-- C10: for every `Fraction` satisfying the constructor invariants and
every u128 value `v`, `mult(v) ≤ v`; in particular the 256-bit
intermediate result fits in 128 bits, so the `as_u128` cast is exact
and `mult` never panics. -/
theorem C10_mult_no_overflow (num den v : Nat) (hden : den ≠ 0) (hnd : num ≤ den)
    (hv : v < 2 ^ 128) :
    Fraction.mult { num := num, den := den } v = some (num * v / den) ∧
    num * v / den ≤ v :=
  ⟨Fraction.mult_eq num den v hden
      (lt_of_le_of_lt (mult_quotient_le num den v hden hnd) hv),
   mult_quotient_le num den v hden hnd⟩

/-- C10 witness: the theorem applied at `num = 2`, `den = 3`, `v = 100`. -/
theorem C10_mult_no_overflow_witness :
    ((3 : Nat) ≠ 0 ∧ (2 : Nat) ≤ 3 ∧ (100 : Nat) < 2 ^ 128) ∧
    (Fraction.mult { num := 2, den := 3 } 100 = some (2 * 100 / 3) ∧
     2 * 100 / 3 ≤ 100) :=
  ⟨⟨by decide, by decide, by decide⟩,
   C10_mult_no_overflow 2 3 100 (by decide) (by decide) (by decide)⟩

/-- C9 counterexample: `Fraction::new(1, 0)` panics via
`assert_ne!(den, 0, ...)`, whose message is the assertion diagnostic
that contains the fixed string but is not exactly equal to it. -/
theorem C9_counterexample :
    Fraction.new 1 0 = .error (assertNeFailMsg 0 0 zeroDenMsg) ∧
    assertNeFailMsg 0 0 zeroDenMsg ≠ "Denominator must be a positive number, but was 0" := by
  refine ⟨rfl, ?_⟩
  decide

/-- C9 (amended): `Fraction::new(num, 0)` fails for every `num` with
the `assert_ne!` panic message, which contains (as a suffix, after the
left/right diagnostics) — but does not equal — the fixed string
"Denominator must be a positive number, but was 0";
`Fraction::new(a, b)` with `a > b > 0` fails with exactly
"The fraction must be less or equal to 1"; and `Fraction::new`
succeeds, returning the pair unchanged, whenever `den ≠ 0` and
`num ≤ den`. -/
theorem C9_fraction_new_messages (num den a b : Nat) (hden : den ≠ 0) (hnd : num ≤ den)
    (hb : 0 < b) (hab : b < a) :
    Fraction.new num 0 = .error (assertNeFailMsg 0 0 zeroDenMsg) ∧
    (∃ p, assertNeFailMsg 0 0 zeroDenMsg = p ++ zeroDenMsg) ∧
    zeroDenMsg = "Denominator must be a positive number, but was 0" ∧
    Fraction.new a b = .error fractionLeMsg ∧
    fractionLeMsg = "The fraction must be less or equal to 1" ∧
    Fraction.new num den = .ok { num := num, den := den } := by
  refine ⟨rfl, ⟨"assertion failed: `(left != right)`\n  left: `" ++ toString (0 : Nat) ++
    "`,\n right: `" ++ toString (0 : Nat) ++ "`: ", rfl⟩, rfl, ?_, rfl, ?_⟩
  · unfold Fraction.new
    rw [if_neg (Nat.pos_iff_ne_zero.mp hb), if_neg (not_le.mpr hab)]
  · unfold Fraction.new
    rw [if_neg hden, if_pos hnd]

/-- C9 witness: the theorem applied at `num = 1`, `den = 2`, `a = 2`, `b = 1`. -/
theorem C9_fraction_new_messages_witness :
    ((2 : Nat) ≠ 0 ∧ (1 : Nat) ≤ 2 ∧ (0 : Nat) < 1 ∧ (1 : Nat) < 2) ∧
    (Fraction.new 1 0 = .error (assertNeFailMsg 0 0 zeroDenMsg) ∧
     (∃ p, assertNeFailMsg 0 0 zeroDenMsg = p ++ zeroDenMsg) ∧
     zeroDenMsg = "Denominator must be a positive number, but was 0" ∧
     Fraction.new 2 1 = .error fractionLeMsg ∧
     fractionLeMsg = "The fraction must be less or equal to 1" ∧
     Fraction.new 1 2 = .ok { num := 1, den := 2 }) :=
  ⟨⟨by decide, by decide, by decide, by decide⟩,
   C9_fraction_new_messages 1 2 2 1 (by decide) (by decide) (by decide) (by decide)⟩

/-- C7: every invocation of `make_payouts` whose predecessor is not the
contract's own account fails with the private-method panic, issues no
transfers, and does so before the promise result is inspected: the
outcome does not depend on the promise result at all. -/
theorem C7_private_guard (env : Env) (res res' : PromiseResult)
    (h : env.predecessor_account_id ≠ env.current_account_id) :
    make_payouts env res = .error .privateMethod ∧
    make_payouts env res = make_payouts env res' := by
  have h1 : ∀ r, make_payouts env r = .error .privateMethod := fun r => by
    unfold make_payouts
    rw [if_pos h]
  exact ⟨h1 res, (h1 res).trans (h1 res').symm⟩

/-- C7 witness: an attacker calling the callback is rejected for both a
failed and a successful promise result. -/
theorem C7_private_guard_witness :
    ("attacker" ≠ "market") ∧
    (make_payouts ⟨"attacker", 0, 0, "market"⟩ .failed = .error .privateMethod ∧
     make_payouts ⟨"attacker", 0, 0, "market"⟩ .failed =
       make_payouts ⟨"attacker", 0, 0, "market"⟩
         (.successful (some [("alice", 1200)]))) :=
  ⟨by decide,
   C7_private_guard _ .failed (.successful (some [("alice", 1200)])) (by decide)⟩

/-- C3 counterexample: on a `Failed` promise result the callback does
not halt cleanly — it hits the `unreachable!()` arm and panics, so its
outcome is the unreachable-code panic, not a clean (`ok`) halt. -/
theorem C3_counterexample :
    make_payouts ⟨"market", 0, 0, "market"⟩ .failed = .error .unreachableCode ∧
    make_payouts ⟨"market", 0, 0, "market"⟩ .failed ≠ .ok [] := by
  refine ⟨rfl, ?_⟩
  intro h
  cases h

/-- C3 (amended): when `make_payouts` is invoked by the contract itself
and the single promise result is `Failed`, no value transfers are
issued and no refund is performed (the deposit stays with the Market),
but the callback treats the outcome as unreachable and panics via
`unreachable!()` instead of halting cleanly. -/
theorem C3_failed_no_transfers (env : Env)
    (h : env.predecessor_account_id = env.current_account_id) :
    make_payouts env .failed = .error .unreachableCode ∧
    ∀ ts, make_payouts env .failed ≠ .ok ts := by
  have h1 : make_payouts env .failed = .error .unreachableCode := by
    unfold make_payouts
    rw [if_neg (not_not_intro h)]
  refine ⟨h1, fun ts hts => ?_⟩
  rw [h1] at hts
  cases hts

/-- C3 witness: the theorem applied to the contract calling itself. -/
theorem C3_failed_no_transfers_witness :
    ("market" = "market") ∧
    (make_payouts ⟨"market", 0, 0, "market"⟩ .failed = .error .unreachableCode ∧
     ∀ ts, make_payouts ⟨"market", 0, 0, "market"⟩ .failed ≠ .ok ts) :=
  ⟨rfl, C3_failed_no_transfers _ rfl⟩

theorem buy_token_own (s : MarketContract) (env : Env) (nft : String) (tid : Nat)
    (L : TokenForSale) (hL : s.tokens_for_sale (nft, tid) = some L)
    (hb : env.predecessor_account_id = L.owner_id) :
    s.buy_token env nft tid = .error .buyOwnTokenNotAllowed := by
  simp only [MarketContract.buy_token, hL, if_pos hb]

theorem buy_token_underpay (s : MarketContract) (env : Env) (nft : String) (tid : Nat)
    (L : TokenForSale) (hL : s.tokens_for_sale (nft, tid) = some L)
    (hb : env.predecessor_account_id ≠ L.owner_id)
    (hd : env.attached_deposit < L.min_price) :
    s.buy_token env nft tid = .error .notEnoughDepositToBuyToken := by
  simp only [MarketContract.buy_token, hL, if_neg hb, if_pos hd]

/-- C5: with a listing present, `buy_token` fails with the own-token
panic when the caller is the listed owner, and with the underpayment
panic when the (non-owner) caller attaches strictly less than
`min_price`; each panic carries exactly the claimed message, and in
both fault cases the invocation reverts, leaving the whole book — the
primary map and every index — unchanged. -/
theorem C5_buy_rejections (s : MarketContract) (nft : String) (tid : Nat)
    (L : TokenForSale) (pred : String) (dep prepaid : Nat) (cur : String)
    (hL : s.tokens_for_sale (nft, tid) = some L) :
    (pred = L.owner_id →
      s.buy_token ⟨pred, dep, prepaid, cur⟩ nft tid = .error .buyOwnTokenNotAllowed ∧
      applyOp s (.buyToken pred dep nft tid) = s) ∧
    (pred ≠ L.owner_id → dep < L.min_price →
      s.buy_token ⟨pred, dep, prepaid, cur⟩ nft tid = .error .notEnoughDepositToBuyToken ∧
      applyOp s (.buyToken pred dep nft tid) = s) ∧
    Panics.msg .buyOwnTokenNotAllowed = "Buyer cannot buy own token" ∧
    Panics.msg .notEnoughDepositToBuyToken =
      "Not enough deposit to cover token minimum price" := by
  refine ⟨fun hb => ⟨buy_token_own s _ nft tid L hL hb, ?_⟩,
    fun hb hd => ⟨buy_token_underpay s _ nft tid L hL hb hd, ?_⟩, rfl, rfl⟩
  · have h2 := buy_token_own s ⟨pred, dep, 0, ""⟩ nft tid L hL hb
    simp only [applyOp, h2]
  · have h2 := buy_token_underpay s ⟨pred, dep, 0, ""⟩ nft tid L hL hb hd
    simp only [applyOp, h2]

/-- C5 witness: the theorem applied to the scenario listing
`(N, 42, alice, 7, 1000, G1, carol)` with buyer bob attaching 999. -/
theorem C5_buy_rejections_witness :
    ((MarketContract.init.add_token "alice" "N" 42
        ⟨1000, some "G1", some "carol"⟩ 7).tokens_for_sale ("N", 42) =
      some ⟨"N", 42, "alice", 7, 1000, some "G1", some "carol"⟩) ∧
    (("bob" = "alice" →
      (MarketContract.init.add_token "alice" "N" 42
          ⟨1000, some "G1", some "carol"⟩ 7).buy_token ⟨"bob", 999, 10, "market"⟩ "N" 42 =
        .error .buyOwnTokenNotAllowed ∧
      applyOp (MarketContract.init.add_token "alice" "N" 42
        ⟨1000, some "G1", some "carol"⟩ 7) (.buyToken "bob" 999 "N" 42) =
        MarketContract.init.add_token "alice" "N" 42 ⟨1000, some "G1", some "carol"⟩ 7) ∧
    ("bob" ≠ "alice" → 999 < 1000 →
      (MarketContract.init.add_token "alice" "N" 42
          ⟨1000, some "G1", some "carol"⟩ 7).buy_token ⟨"bob", 999, 10, "market"⟩ "N" 42 =
        .error .notEnoughDepositToBuyToken ∧
      applyOp (MarketContract.init.add_token "alice" "N" 42
        ⟨1000, some "G1", some "carol"⟩ 7) (.buyToken "bob" 999 "N" 42) =
        MarketContract.init.add_token "alice" "N" 42 ⟨1000, some "G1", some "carol"⟩ 7) ∧
    Panics.msg .buyOwnTokenNotAllowed = "Buyer cannot buy own token" ∧
    Panics.msg .notEnoughDepositToBuyToken =
      "Not enough deposit to cover token minimum price") := by
  have hL : (MarketContract.init.add_token "alice" "N" 42
      ⟨1000, some "G1", some "carol"⟩ 7).tokens_for_sale ("N", 42) =
      some ⟨"N", 42, "alice", 7, 1000, some "G1", some "carol"⟩ := by decide
  have h := C5_buy_rejections (MarketContract.init.add_token "alice" "N" 42
    ⟨1000, some "G1", some "carol"⟩ 7) "N" 42
    ⟨"N", 42, "alice", 7, 1000, some "G1", some "carol"⟩ "bob" 999 10 "market" hL
  exact ⟨hL, h⟩

/-- C6 counterexample: with no listing under `(N, 99)`, `buy_token`
fails with the not-found panic, but its message renders the token id
through the `Debug` format of the `U64` wrapper: the message is
"Token Key `N:U64(99)` was not found", not "Token Key `N:99` was not
found". -/
theorem C6_counterexample :
    MarketContract.init.buy_token ⟨"bob", 1500, 10, "market"⟩ "N" 99 =
      .error (.tokenKeyNotFound ("N", 99)) ∧
    Panics.msg (.tokenKeyNotFound ("N", 99)) = "Token Key `N:U64(99)` was not found" ∧
    Panics.msg (.tokenKeyNotFound ("N", 99)) ≠ "Token Key `N:99` was not found" := by
  refine ⟨rfl, by decide, by decide⟩

/-- C6 (amended): for every key with no listing, `buy_token` fails with
the not-found panic whose message is
"Token Key `<contract>:U64(<id>)` was not found" — the decimal token id
is wrapped in the `U64(...)` rendering produced by formatting the
`near_sdk` `U64` wrapper with `{:?}`. -/
theorem C6_not_found_message (s : MarketContract) (env : Env) (nft : String)
    (tid : Nat) (h : s.tokens_for_sale (nft, tid) = none) :
    s.buy_token env nft tid = .error (.tokenKeyNotFound (nft, tid)) ∧
    Panics.msg (.tokenKeyNotFound (nft, tid)) =
      "Token Key `" ++ (nft ++ ":" ++ u64Debug tid) ++ "` was not found" ∧
    u64Debug tid = "U64(" ++ toString tid ++ ")" := by
  refine ⟨?_, rfl, rfl⟩
  simp only [MarketContract.buy_token, h]

/-- C6 witness: the theorem applied to the empty book at key `(N, 99)`. -/
theorem C6_not_found_message_witness :
    (MarketContract.init.tokens_for_sale ("N", 99) = none) ∧
    (MarketContract.init.buy_token ⟨"carl", 7, 3, "market"⟩ "N" 99 =
      .error (.tokenKeyNotFound ("N", 99)) ∧
     Panics.msg (.tokenKeyNotFound ("N", 99)) =
       "Token Key `" ++ ("N" ++ ":" ++ u64Debug 99) ++ "` was not found" ∧
     u64Debug 99 = "U64(" ++ toString 99 ++ ")") :=
  ⟨rfl, C6_not_found_message MarketContract.init ⟨"carl", 7, 3, "market"⟩ "N" 99 rfl⟩

/-- C2: on the success path of `buy_token` (listing present, buyer not
the owner, deposit at least `min_price`), the listing is removed from
the primary map and from every secondary index, and the invocation
produces the outbound `nft_transfer_payout` call — receiver the buyer,
balance the attached deposit, zero attached value, gas
`prepaid_gas / 3` — chained to the `make_payouts` self-callback with
zero deposit and the fixed `120 × 10^12` gas reservation.  The removal
is sequenced before the promise is created, which the embedding
reflects by returning the post-removal state together with the calls. -/
theorem C2_buy_success (s : MarketContract) (env : Env) (nft : String) (tid : Nat)
    (L : TokenForSale) (hinv : marketInv s)
    (hL : s.tokens_for_sale (nft, tid) = some L)
    (hown : env.predecessor_account_id ≠ L.owner_id)
    (hdep : L.min_price ≤ env.attached_deposit) :
    ∃ s', s.buy_token env nft tid = .ok (s',
        ⟨env.predecessor_account_id, tid, none, none, some env.attached_deposit,
          nft, 0, env.prepaid_gas / 3⟩,
        ⟨env.current_account_id, 0, GAS_FOR_ROYALTIES⟩) ∧
      GAS_FOR_ROYALTIES = 120 * 10 ^ 12 ∧
      s'.tokens_for_sale (nft, tid) = none ∧
      tid ∉ lkup s'.tokens_by_nft_id nft ∧
      (∀ o, ((nft, tid) : TokenKey) ∉ lkup s'.tokens_by_owner_id o) ∧
      (∀ g, ((nft, tid) : TokenKey) ∉ lkup s'.tokens_by_gate_id g) ∧
      (∀ c, ((nft, tid) : TokenKey) ∉ lkup s'.tokens_by_creator_id c) := by
  obtain ⟨s', hs', hinv', hprim⟩ := remove_token_id_spec s (nft, tid) L hinv hL
  have hnone : s'.tokens_for_sale (nft, tid) = none := by rw [hprim, mapUpd_same]
  refine ⟨s', ?_, by decide, hnone, ?_, ?_, ?_, ?_⟩
  · simp only [MarketContract.buy_token, hL, if_neg hown, if_neg (not_lt.mpr hdep), hs',
      NO_DEPOSIT]
  · intro hmem
    obtain ⟨L', hL'⟩ := (hinv'.2.2.1 nft tid).1 hmem
    rw [hnone] at hL'
    cases hL'
  · intro o hmem
    obtain ⟨L', hL', -⟩ := (hinv'.2.2.2.1 (nft, tid) o).1 hmem
    rw [hnone] at hL'
    cases hL'
  · intro g hmem
    obtain ⟨L', hL', -⟩ := (hinv'.2.2.2.2.1 (nft, tid) g).1 hmem
    rw [hnone] at hL'
    cases hL'
  · intro c hmem
    obtain ⟨L', hL', -⟩ := (hinv'.2.2.2.2.2 (nft, tid) c).1 hmem
    rw [hnone] at hL'
    cases hL'

/-- C2 witness: bob buys the scenario listing with deposit 1500 and
prepaid gas 300; the call carries deposit 1500 and gas 100. -/
theorem C2_buy_success_witness :
    (marketInv (MarketContract.init.add_token "alice" "N" 42
        ⟨1000, some "G1", some "carol"⟩ 7) ∧
     (MarketContract.init.add_token "alice" "N" 42
        ⟨1000, some "G1", some "carol"⟩ 7).tokens_for_sale ("N", 42) =
       some ⟨"N", 42, "alice", 7, 1000, some "G1", some "carol"⟩ ∧
     "bob" ≠ "alice" ∧ (1000 : Nat) ≤ 1500) ∧
    (∃ s', (MarketContract.init.add_token "alice" "N" 42
        ⟨1000, some "G1", some "carol"⟩ 7).buy_token ⟨"bob", 1500, 300, "market"⟩ "N" 42 =
        .ok (s', ⟨"bob", 42, none, none, some 1500, "N", 0, 300 / 3⟩,
          ⟨"market", 0, GAS_FOR_ROYALTIES⟩) ∧
      GAS_FOR_ROYALTIES = 120 * 10 ^ 12 ∧
      s'.tokens_for_sale ("N", 42) = none ∧
      42 ∉ lkup s'.tokens_by_nft_id "N" ∧
      (∀ o, (("N", 42) : TokenKey) ∉ lkup s'.tokens_by_owner_id o) ∧
      (∀ g, (("N", 42) : TokenKey) ∉ lkup s'.tokens_by_gate_id g) ∧
      (∀ c, (("N", 42) : TokenKey) ∉ lkup s'.tokens_by_creator_id c)) := by
  have hinv1 : marketInv (MarketContract.init.add_token "alice" "N" 42
      ⟨1000, some "G1", some "carol"⟩ 7) :=
    add_token_preserves MarketContract.init "alice" "N" 42
      ⟨1000, some "G1", some "carol"⟩ 7 marketInv_init (by decide)
  have hL : (MarketContract.init.add_token "alice" "N" 42
      ⟨1000, some "G1", some "carol"⟩ 7).tokens_for_sale ("N", 42) =
      some ⟨"N", 42, "alice", 7, 1000, some "G1", some "carol"⟩ := by decide
  exact ⟨⟨hinv1, hL, by decide, by decide⟩,
    C2_buy_success (MarketContract.init.add_token "alice" "N" 42
        ⟨1000, some "G1", some "carol"⟩ 7) ⟨"bob", 1500, 300, "market"⟩ "N" 42
      ⟨"N", 42, "alice", 7, 1000, some "G1", some "carol"⟩ hinv1 hL
      (by decide) (by decide)⟩

/-- C1 counterexample: after the insert-then-overwriting-insert
sequence `relistOps` (both via `nft_on_approve`, starting from the
empty book), the invariants fail: the final listing has
`gate_id = none`, yet `by_gate["G1"]` still contains its key, because
`add_token` never removes the overwritten listing's index entries. -/
theorem C1_counterexample : ¬ marketInv (runOps MarketContract.init relistOps) := by
  intro h
  obtain ⟨-, -, -, -, hgate, -⟩ := h
  have hmem : (("N", 42) : TokenKey) ∈
      lkup (runOps MarketContract.init relistOps).tokens_by_gate_id "G1" := by decide
  obtain ⟨L, hL, hg⟩ := (hgate ("N", 42) "G1").1 hmem
  have hp : (runOps MarketContract.init relistOps).tokens_for_sale ("N", 42) =
      some ⟨"N", 42, "alice", 8, 2000, none, none⟩ := by decide
  rw [hp] at hL
  cases hL
  cases hg

/-- C1 (amended): for every sequence of listing-book operations
(inserts via `nft_on_approve`/`batch_on_approve`, removes via
`nft_on_revoke`/`buy_token`) starting from the empty book in which
every insert that overwrites an existing listing keeps that listing's
`owner_id`, `gate_id` and `creator_id` (re-listings may change only
`min_price` and `approval_id`), invariants I1-I4 hold in the resulting
state; in particular, for every listing in the book, exactly the index
sets implied by its fields contain its key and no other set does. -/
theorem C1_book_invariants (ops : List MarketOp)
    (h : goodOps MarketContract.init ops = true) :
    marketInv (runOps MarketContract.init ops) :=
  goodOps_inv ops MarketContract.init marketInv_init h

/-- C1 witness: a concrete good sequence — approve, compatible
re-approve, a completed buy, a second approve, a revoke. -/
theorem C1_book_invariants_witness :
    goodOps MarketContract.init
      [.onApprove "N" 42 "alice" 7 ⟨1000, some "G1", some "carol"⟩,
       .onApprove "N" 42 "alice" 9 ⟨1100, some "G1", some "carol"⟩,
       .buyToken "bob" 1500 "N" 42,
       .batchOnApprove "N" [(43, ⟨500, none, none⟩), (44, ⟨600, some "G2", none⟩)] "alice",
       .onRevoke "N" 43] = true ∧
    marketInv (runOps MarketContract.init
      [.onApprove "N" 42 "alice" 7 ⟨1000, some "G1", some "carol"⟩,
       .onApprove "N" 42 "alice" 9 ⟨1100, some "G1", some "carol"⟩,
       .buyToken "bob" 1500 "N" 42,
       .batchOnApprove "N" [(43, ⟨500, none, none⟩), (44, ⟨600, some "G2", none⟩)] "alice",
       .onRevoke "N" 43]) :=
  ⟨by decide, C1_book_invariants _ (by decide)⟩

/-- C4 counterexample: in the re-listing scenario (gate `G1` approval
followed by `nft_on_approve(42, alice, 8, min_price 2000, no gate)`),
`by_gate["G1"]` still contains `(N, 42)` — the claim's assertion that
it no longer does is false. -/
theorem C4_counterexample :
    (("N", 42) : TokenKey) ∈ lkup relistState.tokens_by_gate_id "G1" := by decide

/-- C4 (amended): re-approving a listed `TokenKey` overwrites the
primary listing — after the scenario re-approval the entry's
`min_price` is 2000 and its `approval_id` is 8 — but the secondary
indices are only added to, never cleaned: `by_gate["G1"]` still
contains the key even though the new listing has no `gate_id`. -/
theorem C4_relist_overwrite :
    relistState.tokens_for_sale ("N", 42) =
      some ⟨"N", 42, "alice", 8, 2000, none, none⟩ ∧
    (("N", 42) : TokenKey) ∈ lkup relistState.tokens_by_gate_id "G1" ∧
    (runOps MarketContract.init relistOps) = relistState := by
  refine ⟨by decide, by decide, rfl⟩

end Mintgate
